import Mathlib

/-!
Shallow embedding of the three-phase-commit engine in
`3pcWithDatabases/three_phase_commit.py`.

Modelling conventions, stated once:

* `TransactionState`, `Vote` and `Transaction` mirror the Python enum classes
  and the `Transaction` dataclass (the float `timestamp` becomes an opaque
  `Nat`; its value is never inspected by the engine).
* A participant's SQLite database is split into its two independent parts:
  `data`, the committed effect of the mutation statements on the backing
  store (executing the statements of a transaction inside an open write and
  committing appends them, in order, to `data`), and `transaction_log`, the
  history of `_log_transaction` writes to the `transaction_log` table
  (`INSERT OR REPLACE` keyed by transaction id; the table's current content
  is the last entry per id, the history records each write event).
* The dynamically created/deleted attribute `_pending_connection` becomes
  the field `pending : Option (List String)`, holding the statements
  executed inside the open, uncommitted write.
* Python exceptions raised inside a `try:` body are modelled by an explicit
  per-call `fault : Bool` oracle: `fault = true` means the fallible SQLite
  work of that call raised.  Each `try/except` handler is translated
  literally: the `...Body` function is the `try:` body (returning
  `Except PFault _`), the public operation is the body wrapped in the
  handler.  `_log_transaction` swallows its own exceptions and is modelled
  as an unconditional append.
* `threading.Lock` is non-reentrant.  Every public participant operation
  runs its whole body under `with self.lock`.  `do_commit`'s `except`
  handler calls `self.abort(transaction)` while that lock is still held, so
  the second `acquire` blocks forever; a blocked (never-returning) call is
  modelled as `none` in an `Option` result.
-/

/-- States of `TransactionState(enum.Enum)`. -/
inductive TransactionState where
  | INIT
  | CAN_COMMIT
  | PRE_COMMIT
  | COMMIT
  | ABORT
deriving DecidableEq, Repr

/-- Values of `Vote(enum.Enum)`. -/
inductive Vote where
  | YES
  | NO
  | ACK
deriving DecidableEq, Repr

/-- The `Transaction` dataclass: id, ordered SQL statements, state, timestamp. -/
structure Transaction where
  transaction_id : String
  sql_queries : List String
  state : TransactionState := TransactionState.INIT
  timestamp : Nat := 0
deriving DecidableEq, Repr

/-- One row written by `_log_transaction` into the `transaction_log` table:
`(transaction_id, state, timestamp, queries)`. -/
structure LogEntry where
  transaction_id : String
  state : TransactionState
  timestamp : Nat
  queries : List String
deriving DecidableEq, Repr

/-- A `Participant`: protocol state, durable-log write history, the pending
uncommitted write (`_pending_connection`), and the committed backing-store
data (the ordered statements whose effect has been durably committed). -/
structure Participant where
  participant_id : String
  state : TransactionState := TransactionState.INIT
  transaction_log : List LogEntry := []
  pending : Option (List String) := none
  data : List String := []
deriving DecidableEq, Repr

/-- A participant-internal fault (a raised SQLite/OS exception inside a
`try:` body). -/
inductive PFault where
  | fault
deriving DecidableEq, Repr

/-- Model of `Participant._log_transaction`: append the transaction's current state to
the durable log (its own `try/except` swallows any error). -/
def log_transaction (p : Participant) (tx : Transaction) : Participant :=
  { p with transaction_log :=
      p.transaction_log ++
        [⟨tx.transaction_id, tx.state, tx.timestamp, tx.sql_queries⟩] }

/-- Python `not query.strip()`: the statement is blank after stripping
surrounding whitespace, i.e. every character of it is whitespace. -/
def blankQuery (q : String) : Bool :=
  q.data.all Char.isWhitespace

/-- The `try:` body of `Participant.can_commit` (lines 115-139): validate
every statement; on a blank statement return NO touching nothing; otherwise
move the participant and the transaction to CAN_COMMIT, write the log, and
return YES.  `fault` stands for the SQLite work raising. -/
def canCommitBody (p : Participant) (tx : Transaction) (fault : Bool) :
    Except PFault (Participant × Transaction × Vote) :=
  if fault then
    Except.error PFault.fault
  else if tx.sql_queries.any blankQuery then
    Except.ok (p, tx, Vote.NO)
  else
    let p' := { p with state := TransactionState.CAN_COMMIT }
    let tx' := { tx with state := TransactionState.CAN_COMMIT }
    Except.ok (log_transaction p' tx', tx', Vote.YES)

/-- Model of `Participant.can_commit` (phase 1): the body wrapped in its `except`
handler, which records ABORT locally and votes NO. -/
def can_commit (p : Participant) (tx : Transaction) (fault : Bool) :
    Participant × Transaction × Vote :=
  match canCommitBody p tx fault with
  | Except.ok r => r
  | Except.error _ => ({ p with state := TransactionState.ABORT }, tx, Vote.NO)

/-- The `try:` body of `Participant.pre_commit` (lines 152-184): refuse with
NO (no side effects) unless the local state is CAN_COMMIT; otherwise open an
uncommitted write executing all statements, keep it as the pending handle,
and move to PRE_COMMIT.  A fault raises after the state check (the check is
the first statement of the body). -/
def preCommitBody (p : Participant) (tx : Transaction) (fault : Bool) :
    Except PFault (Participant × Transaction × Vote) :=
  if p.state ≠ TransactionState.CAN_COMMIT then
    Except.ok (p, tx, Vote.NO)
  else if fault then
    Except.error PFault.fault
  else
    let p' := { p with pending := some tx.sql_queries,
                       state := TransactionState.PRE_COMMIT }
    let tx' := { tx with state := TransactionState.PRE_COMMIT }
    Except.ok (p', tx', Vote.ACK)

/-- Model of `Participant.pre_commit` (phase 2): the body wrapped in its `except`
handler, which rolls back the just-opened connection (the local `conn`, not
any previously stored pending handle), records ABORT and votes NO. -/
def pre_commit (p : Participant) (tx : Transaction) (fault : Bool) :
    Participant × Transaction × Vote :=
  match preCommitBody p tx fault with
  | Except.ok r => r
  | Except.error _ => ({ p with state := TransactionState.ABORT }, tx, Vote.NO)

/-- The `try:` body of `Participant.do_commit` (lines 204-224): return with
no effect unless the local state is PRE_COMMIT; otherwise commit the pending
write (its statements become committed data), drop the handle, move to
COMMIT and write the log.  `fault` stands for the commit raising. -/
def doCommitBody (p : Participant) (tx : Transaction) (fault : Bool) :
    Except PFault (Participant × Transaction) :=
  if p.state ≠ TransactionState.PRE_COMMIT then
    Except.ok (p, tx)
  else if fault then
    Except.error PFault.fault
  else
    let p' :=
      match p.pending with
      | some w => { p with data := p.data ++ w, pending := none }
      | none => p
    let p'' := { p' with state := TransactionState.COMMIT }
    let tx' := { tx with state := TransactionState.COMMIT }
    Except.ok (log_transaction p'' tx', tx')

/-- Model of `Participant.do_commit` (phase 3).  Its `except` handler calls
`self.abort(transaction)` while `self.lock` — a non-reentrant
`threading.Lock` — is still held by this very call, so the handler blocks
forever on the second acquire: the fault path never returns, modelled as
`none`. -/
def do_commit (p : Participant) (tx : Transaction) (fault : Bool) :
    Option (Participant × Transaction) :=
  match doCommitBody p tx fault with
  | Except.ok r => some r
  | Except.error _ => none

/-- Model of `Participant.abort`: roll back and discard any pending write (a rollback
failure is only warned and ignored, so it needs no fault oracle), record
ABORT on participant and transaction, and write the log.  Every step of the
body is infallible in the model, so the outer `except` is dead. -/
def Participant.abort (p : Participant) (tx : Transaction) :
    Participant × Transaction :=
  let p' := { p with pending := none, state := TransactionState.ABORT }
  let tx' := { tx with state := TransactionState.ABORT }
  (log_transaction p' tx', tx')

/-- The `Coordinator`: identifier and the append-only participant roster. -/
structure Coordinator where
  coordinator_id : String
  participants : List Participant := []
deriving DecidableEq, Repr

/-- Model of `Coordinator.add_participant`: append to the roster. -/
def add_participant (c : Coordinator) (p : Participant) : Coordinator :=
  { c with participants := c.participants ++ [p] }

/-- Per-call fault oracle for one `execute_transaction` run: whether the
`i`-th participant's phase-1 / phase-2 / phase-3 call raises internally. -/
structure FaultCfg where
  f1 : Nat → Bool
  f2 : Nat → Bool
  f3 : Nat → Bool

/-- The fault-free oracle. -/
def FaultCfg.none : FaultCfg :=
  ⟨fun _ => false, fun _ => false, fun _ => false⟩

/-- The phase-1 loop of `execute_transaction`: call `can_commit` on every
participant in roster order (the transaction object is threaded through,
each call may mutate it), collecting the votes. -/
def runPhase1 (ps : List Participant) (tx : Transaction) (f : Nat → Bool)
    (i : Nat) : List Participant × Transaction × List Vote :=
  match ps with
  | [] => ([], tx, [])
  | p :: rest =>
    let r := can_commit p tx (f i)
    let rec' := runPhase1 rest r.2.1 f (i + 1)
    (r.1 :: rec'.1, rec'.2.1, r.2.2 :: rec'.2.2)

/-- The phase-2 loop of `execute_transaction`: call `pre_commit` on every
participant in roster order, collecting the acks. -/
def runPhase2 (ps : List Participant) (tx : Transaction) (f : Nat → Bool)
    (i : Nat) : List Participant × Transaction × List Vote :=
  match ps with
  | [] => ([], tx, [])
  | p :: rest =>
    let r := pre_commit p tx (f i)
    let rec' := runPhase2 rest r.2.1 f (i + 1)
    (r.1 :: rec'.1, rec'.2.1, r.2.2 :: rec'.2.2)

/-- The phase-3 loop of `execute_transaction`: call `do_commit` on every
participant in roster order; if one call blocks (fault path), the loop —
and the whole run — never returns. -/
def runPhase3 (ps : List Participant) (tx : Transaction) (f : Nat → Bool)
    (i : Nat) : Option (List Participant × Transaction) :=
  match ps with
  | [] => some ([], tx)
  | p :: rest =>
    match do_commit p tx (f i) with
    | none => none
    | some (p', tx') =>
      match runPhase3 rest tx' f (i + 1) with
      | none => none
      | some (rest', tx'') => some (p' :: rest', tx'')

/-- Model of `Coordinator._abort_all`: call `abort` on every registered participant
(each call is individually guarded by `try/except`, but `abort` never
raises). -/
def abort_all (ps : List Participant) (tx : Transaction) :
    List Participant × Transaction :=
  match ps with
  | [] => ([], tx)
  | p :: rest =>
    let r := p.abort tx
    let rec' := abort_all rest r.2
    (r.1 :: rec'.1, rec'.2)

/-- Model of `Coordinator.execute_transaction`: phase 1 on all participants; if any
vote is NO, abort all and return false.  Phase 2 on all participants; if
ACK is absent or NO is present among the responses, abort all and return
false.  Phase 3 on all participants, then return true.  The surrounding
`try/except` of the Python method is dead in the model because no
participant operation raises (`do_commit`'s fault path blocks instead).
`none` means the run never returns. -/
def execute_transaction (c : Coordinator) (tx : Transaction) (fc : FaultCfg) :
    Option (Coordinator × Transaction × Bool) :=
  let r1 := runPhase1 c.participants tx fc.f1 0
  if Vote.NO ∈ r1.2.2 then
    let ra := abort_all r1.1 r1.2.1
    some ({ c with participants := ra.1 }, ra.2, false)
  else
    let r2 := runPhase2 r1.1 r1.2.1 fc.f2 0
    if Vote.ACK ∉ r2.2.2 ∨ Vote.NO ∈ r2.2.2 then
      let ra := abort_all r2.1 r2.2.1
      some ({ c with participants := ra.1 }, ra.2, false)
    else
      match runPhase3 r2.1 r2.2.1 fc.f3 0 with
      | none => none
      | some (ps3, tx3) => some ({ c with participants := ps3 }, tx3, true)

/-! ## Participant operation traces -/

/-- One public participant operation together with the transaction object it
is applied to and the fault oracle of the call. -/
inductive Op where
  | canCommit (tx : Transaction) (fault : Bool)
  | preCommit (tx : Transaction) (fault : Bool)
  | doCommit (tx : Transaction) (fault : Bool)
  | abortOp (tx : Transaction)
deriving DecidableEq, Repr

/-- Apply one operation to a participant, recording the vote it returned
(`do_commit` and `abort` return no vote in Python).  `none` means the call
blocked and never returned. -/
def step (p : Participant) (op : Op) : Option (Participant × Option Vote) :=
  match op with
  | Op.canCommit tx f =>
    let r := can_commit p tx f
    some (r.1, some r.2.2)
  | Op.preCommit tx f =>
    let r := pre_commit p tx f
    some (r.1, some r.2.2)
  | Op.doCommit tx f =>
    match do_commit p tx f with
    | none => none
    | some r => some (r.1, none)
  | Op.abortOp tx =>
    let r := p.abort tx
    some (r.1, none)

/-- A completed sequence of participant operations from `p` to `q`,
recording each operation together with the vote it returned. -/
inductive RunTrace : Participant → List (Op × Option Vote) → Participant → Prop
  | nil (p : Participant) : RunTrace p [] p
  | cons {p p' q : Participant} {op : Op} {v : Option Vote}
      {ios : List (Op × Option Vote)} :
      step p op = some (p', v) → RunTrace p' ios q →
      RunTrace p ((op, v) :: ios) q

/-- The restriction under which the state machine is monotone: `can_commit`
is only invoked from INIT or CAN_COMMIT (it would otherwise restart the
cycle from any state, ABORT included), and `abort` is not invoked on an
already-committed participant. -/
def guardOk (p : Participant) (op : Op) : Prop :=
  match op with
  | Op.canCommit _ _ =>
    p.state = TransactionState.INIT ∨ p.state = TransactionState.CAN_COMMIT
  | Op.abortOp _ => p.state ≠ TransactionState.COMMIT
  | _ => True

/-- A completed sequence of participant operations each of which respects
`guardOk` at the moment it runs. -/
inductive GuardedRun : Participant → List Op → Participant → Prop
  | nil (p : Participant) : GuardedRun p [] p
  | cons {p p' q : Participant} {op : Op} {v : Option Vote} {ops : List Op} :
      guardOk p op → step p op = some (p', v) → GuardedRun p' ops q →
      GuardedRun p (op :: ops) q

/-- Position along the protocol chain INIT→CAN_COMMIT→PRE_COMMIT→terminal;
the two terminal states share the last position. -/
def stateRank : TransactionState → Nat
  | TransactionState.INIT => 0
  | TransactionState.CAN_COMMIT => 1
  | TransactionState.PRE_COMMIT => 2
  | TransactionState.COMMIT => 3
  | TransactionState.ABORT => 3

/-- Relation `forwardStep s t`: the move from `s` to `t` stays put or goes strictly
forward along the chain (in particular neither terminal state can move to
the other). -/
def forwardStep (s t : TransactionState) : Prop :=
  s = t ∨ stateRank s < stateRank t

/-- The pending-write invariant of the spec: a pending handle is present
only while the local state is PRE_COMMIT. -/
def pendingInv (p : Participant) : Prop :=
  p.pending ≠ none → p.state = TransactionState.PRE_COMMIT

/-! ## Concrete scenario values

Small concrete participants, transactions and fault oracles, used to
instantiate the theorems below on executable inputs. -/

/-- A freshly constructed participant: INIT state, empty log, no pending
write, empty backing store. -/
def pA : Participant := { participant_id := "A" }

/-- A transaction with one well-formed mutation statement. -/
def txOne : Transaction :=
  { transaction_id := "T1", sql_queries := ["INSERT INTO t VALUES (1)"] }

/-- A second transaction, distinct from `txOne`. -/
def txTwo : Transaction :=
  { transaction_id := "T2", sql_queries := ["INSERT INTO t VALUES (2)"] }

/-- A transaction containing a blank (whitespace-only) mutation statement. -/
def txBlank : Transaction := { transaction_id := "TB", sql_queries := [" "] }

/-- The participant `pA` after voting YES on `txOne` in phase 1. -/
def pCan : Participant := (can_commit pA txOne false).1

/-- The participant `pCan` after acknowledging `txOne` in phase 2: state
PRE_COMMIT, pending write open. -/
def pPre : Participant := (pre_commit pCan txOne false).1

/-- The participant `pPre` after a `pre_commit` call for the distinct
transaction `txTwo` (used to refute the per-pair sequencing claim). -/
def pPre2 : Participant := (pre_commit pCan txTwo false).1

/-- The participant `pA` after an `abort` call: terminal ABORT state. -/
def pAborted : Participant := (pA.abort txOne).1

/-- A coordinator with the single participant `pA` registered. -/
def cOne : Coordinator := { coordinator_id := "C", participants := [pA] }

/-- A fault oracle that makes exactly the phase-2 calls raise. -/
def fcPhase2Fault : FaultCfg := ⟨fun _ => false, fun _ => true, fun _ => false⟩

/-! ## Per-operation characterizations -/

/-- Exhaustive description of `can_commit`: fault path, blank-statement
path, and YES path. -/
theorem can_commit_cases (p : Participant) (tx : Transaction) (f : Bool) :
    (f = true ∧ can_commit p tx f =
        ({ p with state := TransactionState.ABORT }, tx, Vote.NO)) ∨
    (f = false ∧ tx.sql_queries.any blankQuery = true ∧
        can_commit p tx f = (p, tx, Vote.NO)) ∨
    (f = false ∧ tx.sql_queries.any blankQuery = false ∧
        can_commit p tx f =
          (log_transaction { p with state := TransactionState.CAN_COMMIT }
              { tx with state := TransactionState.CAN_COMMIT },
           { tx with state := TransactionState.CAN_COMMIT }, Vote.YES)) := by
  cases f with
  | true => exact Or.inl ⟨rfl, by simp [can_commit, canCommitBody]⟩
  | false =>
    cases hb : tx.sql_queries.any blankQuery with
    | true =>
      exact Or.inr (Or.inl ⟨rfl, rfl, by simp [can_commit, canCommitBody, hb]⟩)
    | false =>
      exact Or.inr (Or.inr ⟨rfl, rfl, by simp [can_commit, canCommitBody, hb]⟩)

/-- Exhaustive description of `pre_commit`: wrong-state path, fault path,
and ACK path. -/
theorem pre_commit_cases (p : Participant) (tx : Transaction) (f : Bool) :
    (p.state ≠ TransactionState.CAN_COMMIT ∧
        pre_commit p tx f = (p, tx, Vote.NO)) ∨
    (p.state = TransactionState.CAN_COMMIT ∧ f = true ∧
        pre_commit p tx f =
          ({ p with state := TransactionState.ABORT }, tx, Vote.NO)) ∨
    (p.state = TransactionState.CAN_COMMIT ∧ f = false ∧
        pre_commit p tx f =
          ({ p with pending := some tx.sql_queries,
                    state := TransactionState.PRE_COMMIT },
           { tx with state := TransactionState.PRE_COMMIT }, Vote.ACK)) := by
  by_cases hs : p.state = TransactionState.CAN_COMMIT
  · cases f with
    | true =>
      exact Or.inr (Or.inl ⟨hs, rfl, by simp [pre_commit, preCommitBody, hs]⟩)
    | false =>
      exact Or.inr (Or.inr ⟨hs, rfl, by simp [pre_commit, preCommitBody, hs]⟩)
  · exact Or.inl ⟨hs, by simp [pre_commit, preCommitBody, hs]⟩

/-- Exhaustive description of `do_commit`: wrong-state path, blocking fault
path, and the two commit paths (with and without a pending handle). -/
theorem do_commit_cases (p : Participant) (tx : Transaction) (f : Bool) :
    (p.state ≠ TransactionState.PRE_COMMIT ∧ do_commit p tx f = some (p, tx)) ∨
    (p.state = TransactionState.PRE_COMMIT ∧ f = true ∧ do_commit p tx f = none) ∨
    (p.state = TransactionState.PRE_COMMIT ∧ f = false ∧ ∃ w,
        p.pending = some w ∧
        do_commit p tx f =
          some (log_transaction
              { p with data := p.data ++ w, pending := none,
                       state := TransactionState.COMMIT }
              { tx with state := TransactionState.COMMIT },
            { tx with state := TransactionState.COMMIT })) ∨
    (p.state = TransactionState.PRE_COMMIT ∧ f = false ∧ p.pending = none ∧
        do_commit p tx f =
          some (log_transaction { p with state := TransactionState.COMMIT }
              { tx with state := TransactionState.COMMIT },
            { tx with state := TransactionState.COMMIT })) := by
  by_cases hs : p.state = TransactionState.PRE_COMMIT
  · cases f with
    | true =>
      exact Or.inr (Or.inl ⟨hs, rfl, by simp [do_commit, doCommitBody, hs]⟩)
    | false =>
      cases hp : p.pending with
      | some w =>
        refine Or.inr (Or.inr (Or.inl ⟨hs, rfl, w, rfl, ?_⟩))
        simp [do_commit, doCommitBody, hs, hp]
      | none =>
        refine Or.inr (Or.inr (Or.inr ⟨hs, rfl, rfl, ?_⟩))
        simp [do_commit, doCommitBody, hs, hp]
  · exact Or.inl ⟨hs, by simp [do_commit, doCommitBody, hs]⟩

/-- Unconditional behavior of `abort`: discards any pending write, records ABORT and
appends to the log; the data is untouched. -/
theorem abort_eq (p : Participant) (tx : Transaction) :
    p.abort tx =
      ({ p with pending := none, state := TransactionState.ABORT,
                transaction_log := p.transaction_log ++
                  [⟨tx.transaction_id, TransactionState.ABORT, tx.timestamp,
                    tx.sql_queries⟩] },
       { tx with state := TransactionState.ABORT }) := by
  simp [Participant.abort, log_transaction]

/-! ## Phase-run lemmas -/

/-- Operation `can_commit` never touches the backing data or the pending handle. -/
theorem can_commit_pres (p : Participant) (tx : Transaction) (f : Bool) :
    (can_commit p tx f).1.data = p.data ∧
    (can_commit p tx f).1.pending = p.pending := by
  rcases can_commit_cases p tx f with ⟨_, h⟩ | ⟨_, _, h⟩ | ⟨_, _, h⟩ <;>
    rw [h] <;> simp [log_transaction]

/-- Operation `pre_commit` never touches the backing data. -/
theorem pre_commit_data (p : Participant) (tx : Transaction) (f : Bool) :
    (pre_commit p tx f).1.data = p.data := by
  rcases pre_commit_cases p tx f with ⟨_, h⟩ | ⟨_, _, h⟩ | ⟨_, _, h⟩ <;>
    rw [h]

/-- All four operations leave the statement list of the transaction object
untouched; `can_commit`'s version. -/
theorem can_commit_sql (p : Participant) (tx : Transaction) (f : Bool) :
    (can_commit p tx f).2.1.sql_queries = tx.sql_queries := by
  rcases can_commit_cases p tx f with ⟨_, h⟩ | ⟨_, _, h⟩ | ⟨_, _, h⟩ <;>
    rw [h]

/-- The phase-1 loop leaves every participant's backing data unchanged. -/
theorem runPhase1_data (ps : List Participant) (tx : Transaction)
    (f : Nat → Bool) (i : Nat) :
    List.Forall₂ (fun p q => q.data = p.data) ps (runPhase1 ps tx f i).1 := by
  induction ps generalizing tx i with
  | nil => exact List.Forall₂.nil
  | cons p rest ih =>
    simp only [runPhase1]
    exact List.Forall₂.cons (can_commit_pres p tx (f i)).1 (ih _ _)

/-- The phase-1 loop leaves the transaction's statement list unchanged. -/
theorem runPhase1_sql (ps : List Participant) (tx : Transaction)
    (f : Nat → Bool) (i : Nat) :
    (runPhase1 ps tx f i).2.1.sql_queries = tx.sql_queries := by
  induction ps generalizing tx i with
  | nil => rfl
  | cons p rest ih =>
    simp only [runPhase1]
    exact (ih _ _).trans (can_commit_sql p tx (f i))

/-- The phase-1 loop returns one updated participant per roster entry. -/
theorem runPhase1_parts_length (ps : List Participant) (tx : Transaction)
    (f : Nat → Bool) (i : Nat) :
    (runPhase1 ps tx f i).1.length = ps.length :=
  (runPhase1_data ps tx f i).length_eq.symm

/-- The phase-2 loop leaves every participant's backing data unchanged. -/
theorem runPhase2_data (ps : List Participant) (tx : Transaction)
    (f : Nat → Bool) (i : Nat) :
    List.Forall₂ (fun p q => q.data = p.data) ps (runPhase2 ps tx f i).1 := by
  induction ps generalizing tx i with
  | nil => exact List.Forall₂.nil
  | cons p rest ih =>
    simp only [runPhase2]
    exact List.Forall₂.cons (pre_commit_data p tx (f i)) (ih _ _)

/-- The phase-2 loop collects one response per participant. -/
theorem runPhase2_votes_length (ps : List Participant) (tx : Transaction)
    (f : Nat → Bool) (i : Nat) :
    (runPhase2 ps tx f i).2.2.length = ps.length := by
  induction ps generalizing tx i with
  | nil => rfl
  | cons p rest ih =>
    simp only [runPhase2, List.length_cons]
    exact congrArg Nat.succ (ih _ _)

/-- If every phase-2 response is ACK then every participant came out of
phase 2 in PRE_COMMIT holding the transaction's statements as its pending
write, with its data untouched. -/
theorem runPhase2_all_ack (ps : List Participant) (tx : Transaction)
    (f : Nat → Bool) (i : Nat)
    (h : ∀ a ∈ (runPhase2 ps tx f i).2.2, a = Vote.ACK) :
    List.Forall₂ (fun p q => q.state = TransactionState.PRE_COMMIT ∧
        q.pending = some tx.sql_queries ∧ q.data = p.data)
      ps (runPhase2 ps tx f i).1 := by
  induction ps generalizing tx i with
  | nil => exact List.Forall₂.nil
  | cons p rest ih =>
    simp only [runPhase2] at h ⊢
    have hhead : (pre_commit p tx (f i)).2.2 = Vote.ACK :=
      h _ (List.mem_cons_self _ _)
    rcases pre_commit_cases p tx (f i) with ⟨_, he⟩ | ⟨_, _, he⟩ | ⟨_, _, he⟩
    · rw [he] at hhead; cases hhead
    · rw [he] at hhead; cases hhead
    · rw [he] at h ⊢
      refine List.Forall₂.cons ⟨rfl, rfl, rfl⟩ ?_
      have htail := ih { tx with state := TransactionState.PRE_COMMIT } (i + 1)
        (fun a ha => h a (List.mem_cons_of_mem _ ha))
      simpa using htail

/-- If every participant enters phase 3 in PRE_COMMIT holding `w` as its
pending write and no phase-3 call faults, the commit loop completes: every
participant ends in COMMIT with `w` appended to its data and no pending
write left. -/
theorem runPhase3_after_ack (ps1 ps2 : List Participant) (tx : Transaction)
    (f : Nat → Bool) (i : Nat) (w : List String)
    (hf : ∀ j, f j = false)
    (h : List.Forall₂ (fun p q => q.state = TransactionState.PRE_COMMIT ∧
        q.pending = some w ∧ q.data = p.data) ps1 ps2) :
    ∃ ps3 tx', runPhase3 ps2 tx f i = some (ps3, tx') ∧
      List.Forall₂ (fun p q => q.state = TransactionState.COMMIT ∧
          q.pending = none ∧ q.data = p.data ++ w) ps1 ps3 := by
  induction h generalizing tx i with
  | nil => exact ⟨[], tx, rfl, List.Forall₂.nil⟩
  | cons hpq hrest ih =>
    rename_i p q ps1' ps2'
    obtain ⟨hst, hpd, hdata⟩ := hpq
    rcases do_commit_cases q tx (f i) with ⟨hns, _⟩ | ⟨_, hft, _⟩ |
        ⟨_, _, w', hw', he⟩ | ⟨_, _, hnone, _⟩
    · exact absurd hst hns
    · rw [hf i] at hft; cases hft
    · rw [hpd] at hw'
      injection hw' with hww
      subst hww
      obtain ⟨ps3', tx'', heq, hall⟩ :=
        ih { tx with state := TransactionState.COMMIT } (i + 1)
      refine ⟨log_transaction
          { q with data := q.data ++ w, pending := none,
                   state := TransactionState.COMMIT }
          { tx with state := TransactionState.COMMIT } :: ps3',
        tx'', ?_, ?_⟩
      · simp only [runPhase3, he, heq]
      · refine List.Forall₂.cons ?_ hall
        refine ⟨?_, ?_, ?_⟩ <;> simp [log_transaction, hdata]
    · rw [hpd] at hnone; cases hnone

/-- Loop `_abort_all` moves every participant to ABORT, discards any pending
write, and leaves every participant's backing data unchanged. -/
theorem abort_all_spec (ps : List Participant) (tx : Transaction) :
    List.Forall₂ (fun p q => q.state = TransactionState.ABORT ∧
        q.pending = none ∧ q.data = p.data) ps (abort_all ps tx).1 := by
  induction ps generalizing tx with
  | nil => exact List.Forall₂.nil
  | cons p rest ih =>
    simp only [abort_all, abort_eq]
    exact List.Forall₂.cons ⟨rfl, rfl, rfl⟩ (ih _)

/-- Composition of two element-wise list relations. -/
theorem forall₂_compose {α β γ : Type} {R : α → β → Prop} {S : β → γ → Prop}
    {T : α → γ → Prop} (h : ∀ a b c, R a b → S b c → T a c) :
    ∀ {l₁ : List α} {l₂ : List β} {l₃ : List γ},
      List.Forall₂ R l₁ l₂ → List.Forall₂ S l₂ l₃ → List.Forall₂ T l₁ l₃ := by
  intro l₁ l₂ l₃ h12 h23
  induction h12 generalizing l₃ with
  | nil => cases h23; exact List.Forall₂.nil
  | cons hab h' ih =>
    cases h23 with
    | cons hbc h'' => exact List.Forall₂.cons (h _ _ _ hab hbc) (ih h'')

/-! ## Step-level state-machine lemmas -/

/-- Transitivity of the forward order on protocol states. -/
theorem forwardStep_trans {s t u : TransactionState} (h1 : forwardStep s t)
    (h2 : forwardStep t u) : forwardStep s u := by
  rcases h1 with rfl | h1
  · exact h2
  · rcases h2 with rfl | h2
    · exact Or.inr h1
    · exact Or.inr (h1.trans h2)

/-- Operation `pre_commit` acknowledges only from local state CAN_COMMIT. -/
theorem pre_commit_ack_state {p : Participant} {tx : Transaction} {f : Bool}
    (h : (pre_commit p tx f).2.2 = Vote.ACK) :
    p.state = TransactionState.CAN_COMMIT := by
  rcases pre_commit_cases p tx f with ⟨_, he⟩ | ⟨_, _, he⟩ | ⟨hs, _, _⟩
  · rw [he] at h; cases h
  · rw [he] at h; cases h
  · exact hs

/-- A guarded step moves the participant's state forward along the chain,
and never out of ABORT. -/
theorem step_guard_forward {p : Participant} {op : Op}
    {r : Participant × Option Vote} (hg : guardOk p op)
    (hs : step p op = some r) :
    forwardStep p.state r.1.state ∧
    (p.state = TransactionState.ABORT →
        r.1.state = TransactionState.ABORT) := by
  cases op with
  | canCommit tx f =>
    simp only [step] at hs
    injection hs with hs
    rcases can_commit_cases p tx f with ⟨_, he⟩ | ⟨_, _, he⟩ | ⟨_, _, he⟩
    · have hstate : r.1.state = TransactionState.ABORT := by rw [← hs, he]
      refine ⟨?_, fun _ => hstate⟩
      rw [hstate]
      rcases hg with hg' | hg' <;> rw [hg'] <;> exact Or.inr (by decide)
    · have hstate : r.1.state = p.state := by rw [← hs, he]
      exact ⟨by rw [hstate]; exact Or.inl rfl, fun hab => by rw [hstate, hab]⟩
    · have hstate : r.1.state = TransactionState.CAN_COMMIT := by
        rw [← hs, he, log_transaction]
      constructor
      · rw [hstate]
        rcases hg with hg' | hg' <;> rw [hg']
        · exact Or.inr (by decide)
        · exact Or.inl rfl
      · intro hab
        rcases hg with hg' | hg' <;> rw [hg'] at hab <;> cases hab
  | preCommit tx f =>
    simp only [step] at hs
    injection hs with hs
    rcases pre_commit_cases p tx f with ⟨_, he⟩ | ⟨hcs, _, he⟩ | ⟨hcs, _, he⟩
    · have hstate : r.1.state = p.state := by rw [← hs, he]
      exact ⟨by rw [hstate]; exact Or.inl rfl, fun hab => by rw [hstate, hab]⟩
    · have hstate : r.1.state = TransactionState.ABORT := by rw [← hs, he]
      refine ⟨?_, fun _ => hstate⟩
      rw [hstate, hcs]
      exact Or.inr (by decide)
    · have hstate : r.1.state = TransactionState.PRE_COMMIT := by rw [← hs, he]
      constructor
      · rw [hstate, hcs]
        exact Or.inr (by decide)
      · intro hab
        rw [hab] at hcs
        cases hcs
  | doCommit tx f =>
    rcases do_commit_cases p tx f with ⟨_, he⟩ | ⟨_, _, he⟩ |
        ⟨hcs, _, w, _, he⟩ | ⟨hcs, _, _, he⟩ <;> simp only [step, he] at hs
    · injection hs with hs
      have hstate : r.1.state = p.state := by rw [← hs]
      exact ⟨by rw [hstate]; exact Or.inl rfl, fun hab => by rw [hstate, hab]⟩
    · cases hs
    · injection hs with hs
      have hstate : r.1.state = TransactionState.COMMIT := by
        rw [← hs, log_transaction]
      constructor
      · rw [hstate, hcs]
        exact Or.inr (by decide)
      · intro hab
        rw [hab] at hcs
        cases hcs
    · injection hs with hs
      have hstate : r.1.state = TransactionState.COMMIT := by
        rw [← hs, log_transaction]
      constructor
      · rw [hstate, hcs]
        exact Or.inr (by decide)
      · intro hab
        rw [hab] at hcs
        cases hcs
  | abortOp tx =>
    simp only [step] at hs
    injection hs with hs
    have hstate : r.1.state = TransactionState.ABORT := by
      rw [← hs, Participant.abort, log_transaction]
    refine ⟨?_, fun _ => hstate⟩
    rw [hstate]
    cases hps : p.state with
    | INIT => exact Or.inr (by decide)
    | CAN_COMMIT => exact Or.inr (by decide)
    | PRE_COMMIT => exact Or.inr (by decide)
    | COMMIT => exact absurd hps hg
    | ABORT => exact Or.inl rfl

/-- Local state CAN_COMMIT after a step comes either from a state that was
already CAN_COMMIT or from a `can_commit` call that returned YES. -/
theorem step_can_commit_source {p : Participant} {op : Op}
    {r : Participant × Option Vote} (hs : step p op = some r)
    (hc : r.1.state = TransactionState.CAN_COMMIT) :
    p.state = TransactionState.CAN_COMMIT ∨
    ∃ tx f, op = Op.canCommit tx f ∧ r.2 = some Vote.YES := by
  cases op with
  | canCommit tx f =>
    simp only [step] at hs
    injection hs with hs
    rcases can_commit_cases p tx f with ⟨_, he⟩ | ⟨_, _, he⟩ | ⟨_, _, he⟩
    · have hstate : r.1.state = TransactionState.ABORT := by rw [← hs, he]
      rw [hstate] at hc
      cases hc
    · have hstate : r.1.state = p.state := by rw [← hs, he]
      rw [hstate] at hc
      exact Or.inl hc
    · have hv : r.2 = some Vote.YES := by rw [← hs, he]
      exact Or.inr ⟨tx, f, rfl, hv⟩
  | preCommit tx f =>
    simp only [step] at hs
    injection hs with hs
    rcases pre_commit_cases p tx f with ⟨_, he⟩ | ⟨hcs, _, he⟩ | ⟨hcs, _, he⟩
    · have hstate : r.1.state = p.state := by rw [← hs, he]
      rw [hstate] at hc
      exact Or.inl hc
    · have hstate : r.1.state = TransactionState.ABORT := by rw [← hs, he]
      rw [hstate] at hc
      cases hc
    · have hstate : r.1.state = TransactionState.PRE_COMMIT := by rw [← hs, he]
      rw [hstate] at hc
      cases hc
  | doCommit tx f =>
    rcases do_commit_cases p tx f with ⟨_, he⟩ | ⟨_, _, he⟩ |
        ⟨hcs, _, w, _, he⟩ | ⟨hcs, _, _, he⟩ <;> simp only [step, he] at hs
    · injection hs with hs
      have hstate : r.1.state = p.state := by rw [← hs]
      rw [hstate] at hc
      exact Or.inl hc
    · cases hs
    · injection hs with hs
      have hstate : r.1.state = TransactionState.COMMIT := by
        rw [← hs, log_transaction]
      rw [hstate] at hc
      cases hc
    · injection hs with hs
      have hstate : r.1.state = TransactionState.COMMIT := by
        rw [← hs, log_transaction]
      rw [hstate] at hc
      cases hc
  | abortOp tx =>
    simp only [step] at hs
    injection hs with hs
    have hstate : r.1.state = TransactionState.ABORT := by
      rw [← hs, Participant.abort, log_transaction]
    rw [hstate] at hc
    cases hc

/-- In any completed operation sequence starting outside CAN_COMMIT, a
`pre_commit` call that returned ACK is preceded by some `can_commit` call
that returned YES. -/
theorem runTrace_ack_origin {p q : Participant}
    {l₁ l₂ : List (Op × Option Vote)} {tx : Transaction} {f : Bool}
    (ht : RunTrace p (l₁ ++ (Op.preCommit tx f, some Vote.ACK) :: l₂) q)
    (hp : p.state ≠ TransactionState.CAN_COMMIT) :
    ∃ tx' f', (Op.canCommit tx' f', some Vote.YES) ∈ l₁ := by
  induction l₁ generalizing p with
  | nil =>
    cases ht with
    | cons hstep htail =>
      simp only [step] at hstep
      injection hstep with hstep
      have hv : (pre_commit p tx f).2.2 = Vote.ACK := by
        have h2 := congrArg Prod.snd hstep
        injection h2 with h2
      exact absurd (pre_commit_ack_state hv) hp
  | cons e l₁ ih =>
    obtain ⟨op, v⟩ := e
    cases ht with
    | cons hstep htail =>
      rename_i p'
      by_cases hc : p'.state = TransactionState.CAN_COMMIT
      · rcases step_can_commit_source (r := (p', v)) hstep hc with
          h | ⟨tx', f', hop, hv⟩
        · exact absurd h hp
        · subst hop
          simp only at hv
          subst hv
          exact ⟨tx', f', List.mem_cons_self _ _⟩
      · obtain ⟨tx', f', hmem⟩ := ih htail hc
        exact ⟨tx', f', List.mem_cons_of_mem _ hmem⟩

/-! ## Claim theorems: participant-level -/

/-- C4 (amended): on a blank mutation statement `can_commit` returns NO
leaving the participant — local state and durable log included — completely
unchanged; on an internal fault it records ABORT locally and returns NO
without writing the log; the durable log is written exactly on the YES path.
(The original claim also asserted local state → ABORT on the
blank-statement path; the code leaves the state untouched there, see
`c4_counterexample`.) -/
theorem c4_can_commit_no_paths (p : Participant) (tx : Transaction)
    (f : Bool) :
    (f = false → tx.sql_queries.any blankQuery = true →
        can_commit p tx f = (p, tx, Vote.NO)) ∧
    (f = true → can_commit p tx f =
        ({ p with state := TransactionState.ABORT }, tx, Vote.NO)) ∧
    ((can_commit p tx f).2.2 = Vote.NO →
        (can_commit p tx f).1.transaction_log = p.transaction_log) ∧
    ((can_commit p tx f).2.2 = Vote.YES →
        (can_commit p tx f).1.transaction_log = p.transaction_log ++
          [⟨tx.transaction_id, TransactionState.CAN_COMMIT, tx.timestamp,
            tx.sql_queries⟩]) := by
  rcases can_commit_cases p tx f with ⟨hf, he⟩ | ⟨hf, hb, he⟩ | ⟨hf, hb, he⟩
  · subst hf
    refine ⟨?_, ?_, ?_, ?_⟩
    · intro h
      cases h
    · intro _
      exact he
    · intro _
      rw [he]
    · intro hv
      rw [he] at hv
      cases hv
  · subst hf
    refine ⟨?_, ?_, ?_, ?_⟩
    · intro _ _
      exact he
    · intro h
      cases h
    · intro _
      rw [he]
    · intro hv
      rw [he] at hv
      cases hv
  · subst hf
    refine ⟨?_, ?_, ?_, ?_⟩
    · intro _ hb2
      rw [hb] at hb2
      cases hb2
    · intro h
      cases h
    · intro hv
      rw [he] at hv
      cases hv
    · intro _
      rw [he, log_transaction]

/-- C4 counterexample: on a transaction whose only statement is blank,
`can_commit` votes NO but the participant's local state stays INIT — it is
not set to ABORT as the claim states. -/
theorem c4_counterexample :
    (can_commit pA txBlank false).2.2 = Vote.NO ∧
    ((can_commit pA txBlank false).1).state = TransactionState.INIT ∧
    ((can_commit pA txBlank false).1).state ≠ TransactionState.ABORT := by
  decide

/-- C4 witness: the amended NO path evaluated on a concrete blank
transaction. -/
theorem c4_witness :
    can_commit pA txBlank false = (pA, txBlank, Vote.NO) :=
  (c4_can_commit_no_paths pA txBlank false).1 rfl (by decide)

/-- C5 (amended): over any completed operation sequence started on a
freshly constructed participant, a `pre_commit` call that returned ACK is
preceded by some `can_commit` call that returned YES — for some transaction,
not necessarily the same one (see `c5_counterexample`); and outside local
state CAN_COMMIT, `pre_commit` returns NO with no side effects. -/
theorem c5_pre_commit_sequencing (p q : Participant)
    (l₁ l₂ : List (Op × Option Vote)) (tx : Transaction) (f : Bool)
    (hinit : p.state = TransactionState.INIT)
    (ht : RunTrace p (l₁ ++ (Op.preCommit tx f, some Vote.ACK) :: l₂) q) :
    (∃ tx' f', (Op.canCommit tx' f', some Vote.YES) ∈ l₁) ∧
    (∀ (p' : Participant) (tx' : Transaction) (f' : Bool),
        p'.state ≠ TransactionState.CAN_COMMIT →
        pre_commit p' tx' f' = (p', tx', Vote.NO)) := by
  refine ⟨runTrace_ack_origin ht (by rw [hinit]; decide),
    fun p' tx' f' hs => ?_⟩
  rcases pre_commit_cases p' tx' f' with ⟨_, he⟩ | ⟨hcs, _, _⟩ | ⟨hcs, _, _⟩
  · exact he
  · exact absurd hcs hs
  · exact absurd hcs hs

/-- C5 counterexample: after `can_commit` returned YES for transaction T1,
`pre_commit` for the distinct transaction T2 returns ACK although no
`can_commit` call for T2 ever returned YES — the per-pair form of the
sequencing claim fails. -/
theorem c5_counterexample :
    RunTrace pA [(Op.canCommit txOne false, some Vote.YES),
        (Op.preCommit txTwo false, some Vote.ACK)] pPre2 ∧
    txTwo.transaction_id ≠ txOne.transaction_id ∧
    (∀ f, (Op.canCommit txTwo f, some Vote.YES) ∉
        [(Op.canCommit txOne false, some Vote.YES)]) := by
  refine ⟨RunTrace.cons rfl (RunTrace.cons rfl (RunTrace.nil pPre2)),
    by decide, by decide⟩

/-- C5 witness: the amended sequencing statement on a concrete two-call
run. -/
theorem c5_witness :
    pA.state = TransactionState.INIT ∧
    ((∃ tx' f', (Op.canCommit tx' f', some Vote.YES) ∈
        [(Op.canCommit txOne false, some Vote.YES)]) ∧
     (∀ (p' : Participant) (tx' : Transaction) (f' : Bool),
        p'.state ≠ TransactionState.CAN_COMMIT →
        pre_commit p' tx' f' = (p', tx', Vote.NO))) :=
  ⟨rfl, c5_pre_commit_sequencing pA pPre
    [(Op.canCommit txOne false, some Vote.YES)] [] txOne false rfl
    (RunTrace.cons rfl (RunTrace.cons rfl (RunTrace.nil pPre)))⟩

/-- C6 (amended): over every operation sequence in which `can_commit` is
invoked only from INIT or CAN_COMMIT and no abort is invoked from COMMIT,
the local state only moves forward along
INIT→CAN_COMMIT→PRE_COMMIT→{COMMIT​|ABORT} and ABORT is absorbing.  Without
the restriction on `can_commit` the claim fails: a later `can_commit`
resets even an ABORT state back to CAN_COMMIT (see `c6_counterexample`). -/
theorem c6_guarded_monotone (p q : Participant) (ops : List Op)
    (h : GuardedRun p ops q) :
    forwardStep p.state q.state ∧
    (p.state = TransactionState.ABORT →
        q.state = TransactionState.ABORT) := by
  induction h with
  | nil => exact ⟨Or.inl rfl, fun hab => hab⟩
  | cons hg hstep _ ih =>
    have hf := step_guard_forward hg hstep
    exact ⟨forwardStep_trans hf.1 ih.1, fun hab => ih.2 (hf.2 hab)⟩

/-- C6 counterexample: a participant (and the transaction record) in ABORT
moves back to CAN_COMMIT when `can_commit` is invoked again — ABORT is not
absorbing over arbitrary operation sequences. -/
theorem c6_counterexample :
    pAborted.state = TransactionState.ABORT ∧
    ((pA.abort txOne).2).state = TransactionState.ABORT ∧
    ((can_commit pAborted (pA.abort txOne).2 false).1).state
      = TransactionState.CAN_COMMIT ∧
    ((can_commit pAborted (pA.abort txOne).2 false).2.1).state
      = TransactionState.CAN_COMMIT := by
  decide

/-- C6 witness: the guarded monotonicity applied to a concrete one-step
run. -/
theorem c6_witness :
    forwardStep pA.state pAborted.state ∧
    (pA.state = TransactionState.ABORT →
        pAborted.state = TransactionState.ABORT) :=
  c6_guarded_monotone pA pAborted [Op.abortOp txOne]
    (GuardedRun.cons (show pA.state ≠ TransactionState.COMMIT by decide) rfl
      (GuardedRun.nil pAborted))

/-- C7 (amended): every operation except `can_commit` preserves the
invariant that a pending write handle is present only while the local state
is PRE_COMMIT; only a `pre_commit` call returning ACK creates the handle;
and after any such step a participant in COMMIT or ABORT holds no handle.
`can_commit` preserves the invariant only when no handle is present: it
never touches the handle but can move the state out of PRE_COMMIT while the
handle survives (see `c7_counterexample`). -/
theorem c7_pending_only_in_pre_commit (p : Participant) (op : Op)
    (r : Participant × Option Vote)
    (hinv : pendingInv p)
    (hcc : ∀ tx f, op = Op.canCommit tx f → p.pending = none)
    (hs : step p op = some r) :
    pendingInv r.1 ∧
    ((r.1.state = TransactionState.COMMIT ∨
        r.1.state = TransactionState.ABORT) → r.1.pending = none) ∧
    (p.pending = none → r.1.pending ≠ none →
        ∃ tx f, op = Op.preCommit tx f ∧ r.2 = some Vote.ACK) := by
  have key : pendingInv r.1 ∧ (p.pending = none → r.1.pending ≠ none →
      ∃ tx f, op = Op.preCommit tx f ∧ r.2 = some Vote.ACK) := by
    cases op with
    | canCommit tx f =>
      have hpn := hcc tx f rfl
      simp only [step] at hs
      injection hs with hs
      have hpend : r.1.pending = none := by
        rw [← hs]
        show (can_commit p tx f).1.pending = none
        rw [(can_commit_pres p tx f).2, hpn]
      exact ⟨fun hne => absurd hpend hne, fun _ hne => absurd hpend hne⟩
    | preCommit tx f =>
      simp only [step] at hs
      injection hs with hs
      rcases pre_commit_cases p tx f with ⟨_, he⟩ | ⟨hcs, _, he⟩ | ⟨hcs, _, he⟩
      · have hpend : r.1.pending = p.pending := by rw [← hs, he]
        have hstate : r.1.state = p.state := by rw [← hs, he]
        refine ⟨fun hne => ?_, fun hpn hne => ?_⟩
        · rw [hpend] at hne
          rw [hstate]
          exact hinv hne
        · rw [hpend] at hne
          exact absurd hpn hne
      · have hpn : p.pending = none := by
          by_contra hne
          have hps := hinv hne
          rw [hcs] at hps
          cases hps
        have hpend : r.1.pending = none := by
          rw [← hs, he]
          exact hpn
        exact ⟨fun hne => absurd hpend hne, fun _ hne => absurd hpend hne⟩
      · have hstate : r.1.state = TransactionState.PRE_COMMIT := by
          rw [← hs, he]
        have hv : r.2 = some Vote.ACK := by rw [← hs, he]
        exact ⟨fun _ => hstate, fun _ _ => ⟨tx, f, rfl, hv⟩⟩
    | doCommit tx f =>
      rcases do_commit_cases p tx f with ⟨_, he⟩ | ⟨_, _, he⟩ |
          ⟨hcs, _, w, hw, he⟩ | ⟨hcs, _, hpn, he⟩ <;> simp only [step, he] at hs
      · injection hs with hs
        have hpend : r.1.pending = p.pending := by rw [← hs]
        have hstate : r.1.state = p.state := by rw [← hs]
        refine ⟨fun hne => ?_, fun hpn2 hne => ?_⟩
        · rw [hpend] at hne
          rw [hstate]
          exact hinv hne
        · rw [hpend] at hne
          exact absurd hpn2 hne
      · cases hs
      · injection hs with hs
        have hpend : r.1.pending = none := by rw [← hs, log_transaction]
        exact ⟨fun hne => absurd hpend hne, fun _ hne => absurd hpend hne⟩
      · injection hs with hs
        have hpend : r.1.pending = none := by
          rw [← hs, log_transaction]
          exact hpn
        exact ⟨fun hne => absurd hpend hne, fun _ hne => absurd hpend hne⟩
    | abortOp tx =>
      simp only [step] at hs
      injection hs with hs
      have hpend : r.1.pending = none := by
        rw [← hs, Participant.abort, log_transaction]
      exact ⟨fun hne => absurd hpend hne, fun _ hne => absurd hpend hne⟩
  refine ⟨key.1, fun hterm => ?_, key.2⟩
  by_contra hne
  have hps := key.1 hne
  rcases hterm with hC | hA
  · rw [hps] at hC
    cases hC
  · rw [hps] at hA
    cases hA

/-- C7 counterexample: a participant holding a pending write in PRE_COMMIT
(for T1) answers a later `can_commit` call (for T2) with YES, reaching state
CAN_COMMIT while the pending handle of T1 is still present — the handle is
not confined to PRE_COMMIT. -/
theorem c7_counterexample :
    pPre.state = TransactionState.PRE_COMMIT ∧
    pPre.pending = some txOne.sql_queries ∧
    ((can_commit pPre txTwo false).1).state = TransactionState.CAN_COMMIT ∧
    ((can_commit pPre txTwo false).1).pending = some txOne.sql_queries := by
  decide

/-- C7 witness: the preserved invariant across a concrete ACK-returning
`pre_commit` step. -/
theorem c7_witness :
    pendingInv pCan ∧ pCan.pending = none ∧
    (pendingInv pPre ∧
     ((pPre.state = TransactionState.COMMIT ∨
         pPre.state = TransactionState.ABORT) → pPre.pending = none) ∧
     (pCan.pending = none → pPre.pending ≠ none →
         ∃ tx f, Op.preCommit txOne false = Op.preCommit tx f ∧
           (some Vote.ACK : Option Vote) = some Vote.ACK)) :=
  ⟨fun h => absurd rfl h, rfl,
    c7_pending_only_in_pre_commit pCan (Op.preCommit txOne false)
      (pPre, some Vote.ACK) (fun h => absurd rfl h)
      (fun _ _ h => nomatch h) rfl⟩

/-- C8: phase-1 and phase-2 participant calls always return a plain vote
(YES/NO, respectively ACK/NO) for every input and fault oracle — faults
never escape as exceptions.  But a faulting `do_commit` does not perform
the claimed silent local abort: its handler calls `abort` while the
non-reentrant participant lock is still held, so the call blocks forever
(modelled as `none`) from a reachable PRE_COMMIT configuration. -/
theorem c8_fault_conversion :
    (∀ (p : Participant) (tx : Transaction) (f : Bool),
        (can_commit p tx f).2.2 = Vote.YES ∨
        (can_commit p tx f).2.2 = Vote.NO) ∧
    (∀ (p : Participant) (tx : Transaction) (f : Bool),
        (pre_commit p tx f).2.2 = Vote.ACK ∨
        (pre_commit p tx f).2.2 = Vote.NO) ∧
    pPre.state = TransactionState.PRE_COMMIT ∧
    do_commit pPre txOne true = none := by
  refine ⟨fun p tx f => ?_, fun p tx f => ?_, by decide, by decide⟩
  · rcases can_commit_cases p tx f with ⟨_, he⟩ | ⟨_, _, he⟩ | ⟨_, _, he⟩ <;>
      rw [he] <;> simp
  · rcases pre_commit_cases p tx f with ⟨_, he⟩ | ⟨_, _, he⟩ | ⟨_, _, he⟩ <;>
      rw [he] <;> simp

/-- C9: calling `abort` on a participant already in terminal ABORT with no
pending write leaves the backing data unchanged and the state ABORT with no
pending write; only the durable log is appended again. -/
theorem c9_abort_idempotent (p : Participant) (tx : Transaction)
    (hst : p.state = TransactionState.ABORT) (hpd : p.pending = none) :
    ((p.abort tx).1).data = p.data ∧
    ((p.abort tx).1).state = TransactionState.ABORT ∧
    ((p.abort tx).1).pending = none ∧
    ((p.abort tx).1).transaction_log = p.transaction_log ++
      [⟨tx.transaction_id, TransactionState.ABORT, tx.timestamp,
        tx.sql_queries⟩] := by
  rw [abort_eq]
  exact ⟨rfl, rfl, rfl, rfl⟩

/-- C9 witness: the second `abort` on a concrete already-aborted
participant. -/
theorem c9_witness :
    pAborted.state = TransactionState.ABORT ∧ pAborted.pending = none ∧
    (((pAborted.abort txTwo).1).data = pAborted.data ∧
     ((pAborted.abort txTwo).1).state = TransactionState.ABORT ∧
     ((pAborted.abort txTwo).1).pending = none ∧
     ((pAborted.abort txTwo).1).transaction_log =
       pAborted.transaction_log ++
         [⟨txTwo.transaction_id, TransactionState.ABORT, txTwo.timestamp,
           txTwo.sql_queries⟩]) :=
  ⟨by decide, by decide,
    c9_abort_idempotent pAborted txTwo (by decide) (by decide)⟩

/-! ## Claim theorems: coordinator-level -/

/-- C2: if any phase-1 vote of the run is NO, `execute_transaction` aborts
every registered participant and returns false: each participant ends in
ABORT with no pending write, and no participant's backing data changes. -/
theorem c2_phase1_no_aborts_all (c : Coordinator) (tx : Transaction)
    (fc : FaultCfg)
    (h : Vote.NO ∈ (runPhase1 c.participants tx fc.f1 0).2.2) :
    ∃ ps' tx', execute_transaction c tx fc =
        some ({ c with participants := ps' }, tx', false) ∧
      List.Forall₂ (fun p q => q.state = TransactionState.ABORT ∧
          q.pending = none ∧ q.data = p.data) c.participants ps' := by
  refine ⟨(abort_all (runPhase1 c.participants tx fc.f1 0).1
        (runPhase1 c.participants tx fc.f1 0).2.1).1,
      (abort_all (runPhase1 c.participants tx fc.f1 0).1
        (runPhase1 c.participants tx fc.f1 0).2.1).2, ?_, ?_⟩
  · simp only [execute_transaction]
    rw [if_pos h]
  · exact forall₂_compose
      (fun a b c' hab hbc => ⟨hbc.1, hbc.2.1, hbc.2.2.trans hab⟩)
      (runPhase1_data c.participants tx fc.f1 0)
      (abort_all_spec (runPhase1 c.participants tx fc.f1 0).1
        (runPhase1 c.participants tx fc.f1 0).2.1)

/-- C3: if the run reaches phase 2 (no phase-1 NO) and some phase-2 response
is NO (a NO vote or a converted fault), `execute_transaction` aborts every
participant and returns false: every pending prepared write is rolled back
and discarded, every participant ends in ABORT, no backing data changes. -/
theorem c3_phase2_failure_aborts_all (c : Coordinator) (tx : Transaction)
    (fc : FaultCfg)
    (h1 : Vote.NO ∉ (runPhase1 c.participants tx fc.f1 0).2.2)
    (h2 : Vote.NO ∈ (runPhase2 (runPhase1 c.participants tx fc.f1 0).1
        (runPhase1 c.participants tx fc.f1 0).2.1 fc.f2 0).2.2) :
    ∃ ps' tx', execute_transaction c tx fc =
        some ({ c with participants := ps' }, tx', false) ∧
      List.Forall₂ (fun p q => q.state = TransactionState.ABORT ∧
          q.pending = none ∧ q.data = p.data) c.participants ps' := by
  refine ⟨(abort_all (runPhase2 (runPhase1 c.participants tx fc.f1 0).1
          (runPhase1 c.participants tx fc.f1 0).2.1 fc.f2 0).1
        (runPhase2 (runPhase1 c.participants tx fc.f1 0).1
          (runPhase1 c.participants tx fc.f1 0).2.1 fc.f2 0).2.1).1,
      (abort_all (runPhase2 (runPhase1 c.participants tx fc.f1 0).1
          (runPhase1 c.participants tx fc.f1 0).2.1 fc.f2 0).1
        (runPhase2 (runPhase1 c.participants tx fc.f1 0).1
          (runPhase1 c.participants tx fc.f1 0).2.1 fc.f2 0).2.1).2, ?_, ?_⟩
  · simp only [execute_transaction]
    rw [if_neg h1, if_pos (Or.inr h2)]
  · exact forall₂_compose
      (fun a b c' hab hbc => ⟨hbc.1, hbc.2.1, hbc.2.2.trans hab⟩)
      (forall₂_compose (fun a b c' hab hbc => hbc.trans hab)
        (runPhase1_data c.participants tx fc.f1 0)
        (runPhase2_data (runPhase1 c.participants tx fc.f1 0).1
          (runPhase1 c.participants tx fc.f1 0).2.1 fc.f2 0))
      (abort_all_spec (runPhase2 (runPhase1 c.participants tx fc.f1 0).1
          (runPhase1 c.participants tx fc.f1 0).2.1 fc.f2 0).1
        (runPhase2 (runPhase1 c.participants tx fc.f1 0).1
          (runPhase1 c.participants tx fc.f1 0).2.1 fc.f2 0).2.1)

/-- C1: on a non-empty roster, if every phase-1 vote of the run is YES and
every phase-2 response is ACK (and no phase-3 call faults — a faulting
final commit is the separately documented divergence case),
`execute_transaction` returns true, every participant ends in COMMIT with
no pending write, and the transaction's statement list is appended, in
order, to every participant's backing data. -/
theorem c1_unanimous_yes_ack_commits (c : Coordinator) (tx : Transaction)
    (fc : FaultCfg)
    (hne : c.participants ≠ [])
    (h1 : ∀ v ∈ (runPhase1 c.participants tx fc.f1 0).2.2, v = Vote.YES)
    (h2 : ∀ a ∈ (runPhase2 (runPhase1 c.participants tx fc.f1 0).1
        (runPhase1 c.participants tx fc.f1 0).2.1 fc.f2 0).2.2, a = Vote.ACK)
    (h3 : ∀ j, fc.f3 j = false) :
    ∃ ps3 tx3, execute_transaction c tx fc =
        some ({ c with participants := ps3 }, tx3, true) ∧
      List.Forall₂ (fun p q => q.state = TransactionState.COMMIT ∧
          q.pending = none ∧ q.data = p.data ++ tx.sql_queries)
        c.participants ps3 := by
  have hno1 : Vote.NO ∉ (runPhase1 c.participants tx fc.f1 0).2.2 :=
    fun hm => absurd (h1 _ hm) (by decide)
  have hall2 := runPhase2_all_ack (runPhase1 c.participants tx fc.f1 0).1
    (runPhase1 c.participants tx fc.f1 0).2.1 fc.f2 0 h2
  rw [runPhase1_sql] at hall2
  have hall12 : List.Forall₂ (fun p q =>
      q.state = TransactionState.PRE_COMMIT ∧
      q.pending = some tx.sql_queries ∧ q.data = p.data) c.participants
      (runPhase2 (runPhase1 c.participants tx fc.f1 0).1
        (runPhase1 c.participants tx fc.f1 0).2.1 fc.f2 0).1 :=
    forall₂_compose
      (fun a b c' hab hbc => ⟨hbc.1, hbc.2.1, hbc.2.2.trans hab⟩)
      (runPhase1_data c.participants tx fc.f1 0) hall2
  obtain ⟨ps3, tx3, heq3, hall3⟩ := runPhase3_after_ack c.participants
    (runPhase2 (runPhase1 c.participants tx fc.f1 0).1
      (runPhase1 c.participants tx fc.f1 0).2.1 fc.f2 0).1
    (runPhase2 (runPhase1 c.participants tx fc.f1 0).1
      (runPhase1 c.participants tx fc.f1 0).2.1 fc.f2 0).2.1
    fc.f3 0 tx.sql_queries h3 hall12
  have hlen : (runPhase2 (runPhase1 c.participants tx fc.f1 0).1
      (runPhase1 c.participants tx fc.f1 0).2.1 fc.f2 0).2.2.length
      = c.participants.length := by
    rw [runPhase2_votes_length, runPhase1_parts_length]
  have hackne : (runPhase2 (runPhase1 c.participants tx fc.f1 0).1
      (runPhase1 c.participants tx fc.f1 0).2.1 fc.f2 0).2.2 ≠ [] := by
    intro h0
    rw [h0] at hlen
    exact hne (List.eq_nil_of_length_eq_zero hlen.symm)
  obtain ⟨a, ha⟩ := List.exists_mem_of_ne_nil _ hackne
  have hack : Vote.ACK ∈ (runPhase2 (runPhase1 c.participants tx fc.f1 0).1
      (runPhase1 c.participants tx fc.f1 0).2.1 fc.f2 0).2.2 :=
    (h2 a ha) ▸ ha
  have hno2 : Vote.NO ∉ (runPhase2 (runPhase1 c.participants tx fc.f1 0).1
      (runPhase1 c.participants tx fc.f1 0).2.1 fc.f2 0).2.2 :=
    fun hm => absurd (h2 _ hm) (by decide)
  refine ⟨ps3, tx3, ?_, hall3⟩
  simp only [execute_transaction]
  rw [if_neg hno1, if_neg (not_or.mpr ⟨not_not_intro hack, hno2⟩), heq3]

/-- C10: with an empty roster `execute_transaction` returns false: the
phase-1 NO check passes vacuously, but the phase-2 aggregation requires an
ACK to be present among the (empty) responses, so the abort path runs even
though no participant voted NO or faulted. -/
theorem c10_empty_roster_returns_false (cid : String) (tx : Transaction)
    (fc : FaultCfg) :
    execute_transaction { coordinator_id := cid, participants := [] } tx fc
      = some ({ coordinator_id := cid, participants := [] }, tx, false) ∧
    Vote.NO ∉ (runPhase1 ([] : List Participant) tx fc.f1 0).2.2 ∧
    Vote.ACK ∉ (runPhase2 ([] : List Participant) tx fc.f2 0).2.2 := by
  refine ⟨?_, by simp [runPhase1], by simp [runPhase2]⟩
  simp [execute_transaction, runPhase1, runPhase2, abort_all]

/-- C1 witness: a concrete fault-free run on one participant with one valid
statement. -/
theorem c1_witness :
    cOne.participants ≠ [] ∧
    (∀ v ∈ (runPhase1 cOne.participants txOne FaultCfg.none.f1 0).2.2,
        v = Vote.YES) ∧
    (∀ a ∈ (runPhase2 (runPhase1 cOne.participants txOne FaultCfg.none.f1 0).1
        (runPhase1 cOne.participants txOne FaultCfg.none.f1 0).2.1
        FaultCfg.none.f2 0).2.2, a = Vote.ACK) ∧
    ∃ ps3 tx3, execute_transaction cOne txOne FaultCfg.none =
        some ({ cOne with participants := ps3 }, tx3, true) ∧
      List.Forall₂ (fun p q => q.state = TransactionState.COMMIT ∧
          q.pending = none ∧ q.data = p.data ++ txOne.sql_queries)
        cOne.participants ps3 :=
  ⟨by decide, by decide, by decide,
    c1_unanimous_yes_ack_commits cOne txOne FaultCfg.none (by decide)
      (by decide) (by decide) (fun _ => rfl)⟩

/-- C2 witness: a concrete run in which the only participant votes NO on a
blank statement. -/
theorem c2_witness :
    Vote.NO ∈ (runPhase1 cOne.participants txBlank FaultCfg.none.f1 0).2.2 ∧
    ∃ ps' tx', execute_transaction cOne txBlank FaultCfg.none =
        some ({ cOne with participants := ps' }, tx', false) ∧
      List.Forall₂ (fun p q => q.state = TransactionState.ABORT ∧
          q.pending = none ∧ q.data = p.data) cOne.participants ps' :=
  ⟨by decide, c2_phase1_no_aborts_all cOne txBlank FaultCfg.none (by decide)⟩

/-- C3 witness: a concrete run in which phase 1 is unanimous YES and the
phase-2 call faults (converted to NO). -/
theorem c3_witness :
    Vote.NO ∉ (runPhase1 cOne.participants txOne fcPhase2Fault.f1 0).2.2 ∧
    Vote.NO ∈ (runPhase2 (runPhase1 cOne.participants txOne
        fcPhase2Fault.f1 0).1
      (runPhase1 cOne.participants txOne fcPhase2Fault.f1 0).2.1
      fcPhase2Fault.f2 0).2.2 ∧
    ∃ ps' tx', execute_transaction cOne txOne fcPhase2Fault =
        some ({ cOne with participants := ps' }, tx', false) ∧
      List.Forall₂ (fun p q => q.state = TransactionState.ABORT ∧
          q.pending = none ∧ q.data = p.data) cOne.participants ps' :=
  ⟨by decide, by decide,
    c3_phase2_failure_aborts_all cOne txOne fcPhase2Fault (by decide)
      (by decide)⟩
